import Mathlib

/-!
Verification of the View/FormValue codec and normalizer of
`src/js/components/Data/DataForm.js`.

Modelling conventions (shallow embedding of the JavaScript source):
* A JS object holding a view or a form value becomes a Lean structure whose
  fields are the keys the code touches; a field that may be absent is an
  `Option`.  Property bags (`view.properties`, the non-reserved keys of a
  form value) become association lists `List (String × PropVal)`.
* JS truthiness is modelled per type: a string is truthy iff nonempty, a
  number iff nonzero, arrays and objects are always truthy, `undefined`
  (`none`) is falsy.
* A thrown exception (`JSON.parse(JSON.stringify(undefined))` on a missing
  view lookup, `views.find` on an `undefined` collection) is modelled by
  returning `none` from an `Option`-valued function.
* `JSON.stringify` equality of the pure data involved coincides with
  structural equality, so value comparison is `DecidableEq`.
-/

namespace DataForm

/-- A scalar JS value stored in a filter: string, number or boolean. -/
inductive Scalar
  | str (s : String)
  | num (n : Int)
  | bool (b : Bool)
  deriving DecidableEq

/-- JS truthiness of a scalar. -/
def Scalar.truthy : Scalar → Bool
  | .str s => !(s == "")
  | .num n => !(n == 0)
  | .bool b => b

/-- The value of one property, either view-side or form-side:
a scalar, a multi-select sequence, a range object `\x7bmin, max\x7d`, or the
form-side range wrapper `\x7b_range: [min, max]\x7d`. -/
inductive PropVal
  | scalar (s : Scalar)
  | seq (xs : List Scalar)
  | range (mn mx : Int)
  | rangeWrap (mn mx : Int)
  deriving DecidableEq

/-- JS truthiness of a property value: arrays and objects are truthy. -/
def PropVal.truthy : PropVal → Bool
  | .scalar s => s.truthy
  | _ => true

/-- `Array.isArray(v) && v.length === 0` for a property value. -/
def PropVal.isEmptySeq : PropVal → Bool
  | .seq [] => true
  | _ => false

/-- Whether a property value is the form-side range wrapper. -/
def PropVal.isWrapped : PropVal → Bool
  | .rangeWrap _ _ => true
  | _ => false

/-- A sort specification; the code treats it as an opaque object. -/
structure SortSpec where
  property : String
  ascending : Bool
  deriving DecidableEq

/-- The external view format: the fields read or written by the code.
`view` is the spurious key that `formValueToView` writes back (the
`viewFormKeyMap` entry `view -> _view`); an externally supplied view
normally has `view = none`. -/
structure View where
  name : Option String := none
  search : Option String := none
  sort : Option SortSpec := none
  step : Option Int := none
  page : Option Int := none
  columns : Option (List String) := none
  view : Option String := none
  properties : List (String × PropVal) := []
  deriving DecidableEq

/-- The flat form value: the six reserved `_`-prefixed keys plus the
property keys.  `viewName` holds the `_view` key. -/
structure FormValue where
  search : Option String := none
  sort : Option SortSpec := none
  step : Option Int := none
  page : Option Int := none
  columns : Option (List String) := none
  viewName : Option String := none
  props : List (String × PropVal) := []
  deriving DecidableEq

/-- Truthiness of an optional JS string. -/
def strTruthy : Option String → Bool
  | some s => !(s == "")
  | none => false

/-- Truthiness of an optional JS number. -/
def intTruthy : Option Int → Bool
  | some n => !(n == 0)
  | none => false

def formSearchKey : String := "_search"
def formSortKey : String := "_sort"
def formRangeKey : String := "_range"
def formStepKey : String := "_step"
def formPageKey : String := "_page"
def formColumnsKey : String := "_columns"
def formViewNameKey : String := "_view"

/-- Source line 52: replace a `\x7bmin, max\x7d` value (the only variant with
numeric `min`/`max` keys) with `\x7b_range: [min, max]\x7d`. -/
def wrapRange : PropVal → PropVal
  | .range mn mx => .rangeWrap mn mx
  | p => p

/-- Source lines 94-97: a value with a truthy `_range` key becomes
`\x7bmin: r[0], max: r[1]\x7d`. -/
def unwrapRange : PropVal → PropVal
  | .rangeWrap mn mx => .range mn mx
  | p => p

/-- `viewToFormValue` (source lines 44-68).  Reserved keys are copied when
truthy; `_search` falls back to `""`; line 64 overwrites `_view` with
`view.name` when that is truthy, after the `viewFormKeyMap` loop set it
from `view.view`. -/
def viewToFormValue : Option View → FormValue
  | none => { search := some "" }
  | some v =>
    { search := if strTruthy v.search then v.search else some ""
      sort := v.sort
      step := if intTruthy v.step then v.step else none
      page := if intTruthy v.page then v.page else none
      columns := v.columns
      viewName :=
        if strTruthy v.name then v.name
        else if strTruthy v.view then v.view
        else none
      props := v.properties.map (fun kp => (kp.1, wrapRange kp.2)) }

/-- The object spread `\x7b ...base, ...upd \x7d` on property maps: keys of
`base` in order with values overridden by `upd`, then the keys of `upd`
not in `base`, in order. -/
def mergeProps (base upd : List (String × PropVal)) : List (String × PropVal) :=
  (base.map fun kp =>
    match upd.find? (fun q => q.1 == kp.1) with
    | some q => (kp.1, q.2)
    | none => kp) ++
  upd.filter (fun q => !(base.any fun kp => kp.1 == q.1))

/-- Source lines 80-101 of `formValueToView`: copy the truthy reserved keys
of `value` over the seeded view, merge the remaining keys into
`properties` and unwrap ranges.  The `view` key of the result is written
by the `viewFormKeyMap` loop from `value._view`. -/
def assembleView (seed : View) (value : FormValue) : View :=
  { name := seed.name
    search := if strTruthy value.search then value.search else seed.search
    sort := if value.sort.isSome then value.sort else seed.sort
    step := if intTruthy value.step then value.step else seed.step
    page := if intTruthy value.page then value.page else seed.page
    columns := if value.columns.isSome then value.columns else seed.columns
    view := if strTruthy value.viewName then value.viewName else seed.view
    properties :=
      (mergeProps seed.properties value.props).map
        (fun kp => (kp.1, unwrapRange kp.2)) }

/-- `formValueToView` (source lines 71-102).  When `value._view` is truthy
the result is seeded with `JSON.parse(JSON.stringify(views.find(...)))`:
if `views` is `undefined` the `.find` call throws a `TypeError`, and if no
entry matches, `JSON.parse` of `undefined` throws a `SyntaxError` — both
modelled as `none`. -/
def formValueToView (value : FormValue) (views : Option (List View)) :
    Option View :=
  if strTruthy value.viewName then
    match views with
    | none => none
    | some vs =>
      match vs.find? (fun v => v.name == value.viewName) with
      | none => none
      | some seed => some (assembleView seed value)
  else some (assembleView {} value)

/-- `clearEmpty` (source lines 106-112): delete every key whose value is an
array of length zero.  The only array-valued keys a form value can hold
are `_columns` and sequence-valued properties. -/
def clearEmpty (formValue : FormValue) : FormValue :=
  { formValue with
    columns :=
      match formValue.columns with
      | some [] => none
      | c => c
    props := formValue.props.filter (fun kp => !kp.2.isEmptySeq) }

/-- `resetPage` (source lines 115-119): if `prev._page` is truthy and
greater than 1, force `next._page = 1`. -/
def resetPage (nextFormValue prevFormValue : FormValue) : FormValue :=
  match prevFormValue.page with
  | some p =>
    if !(p == 0) && decide (1 < p) then { nextFormValue with page := some 1 }
    else nextFormValue
  | none => nextFormValue

/-- Any value stored at a key of a form value, for generic key lookup. -/
inductive FVal
  | str (s : String)
  | sortv (s : SortSpec)
  | num (n : Int)
  | strList (xs : List String)
  | pv (p : PropVal)
  deriving DecidableEq

/-- JS truthiness of a stored value. -/
def FVal.truthy : FVal → Bool
  | .str s => !(s == "")
  | .sortv _ => true
  | .num n => !(n == 0)
  | .strList _ => true
  | .pv p => p.truthy

/-- `Array.isArray(v) && v.length === 0` for a stored value. -/
def FVal.isEmptyArr : FVal → Bool
  | .strList [] => true
  | .pv (.seq []) => true
  | _ => false

/-- JS property lookup `value[key]` on the flattened form value object. -/
def FormValue.get (value : FormValue) (key : String) : Option FVal :=
  if key == formSearchKey then value.search.map FVal.str
  else if key == formSortKey then value.sort.map FVal.sortv
  else if key == formStepKey then value.step.map FVal.num
  else if key == formPageKey then value.page.map FVal.num
  else if key == formColumnsKey then value.columns.map FVal.strList
  else if key == formViewNameKey then value.viewName.map FVal.str
  else (value.props.find? (fun q => q.1 == key)).map (fun q => FVal.pv q.2)

/-- JS `key.split('.')` restricted to the `'.'` separator used by the
source, written by structural recursion over the characters. -/
def splitDotAux : List Char → List Char → List String
  | [], acc => [String.mk acc.reverse]
  | c :: rest, acc =>
    if c == '.' then String.mk acc.reverse :: splitDotAux rest []
    else splitDotAux rest (c :: acc)

/-- `key.split('.')`. -/
def splitDot (s : String) : List String :=
  splitDotAux s.data []

/-- `transformTouched` (source lines 121-130): one entry per touched path;
a path whose second dot-segment is `_range` reports the value stored at
its first segment, every other path reports the value at the literal
path.  A missing key yields an entry with `undefined` (`none`). -/
def transformTouched (touched : List String) (value : FormValue) :
    List (String × Option FVal) :=
  touched.map fun key =>
    let parts := splitDot key
    if parts.getD 1 "" == formRangeKey then (key, value.get (parts.getD 0 ""))
    else (key, value.get key)

/-- One disjunct of the divergence check at source lines 152-159, for a
reserved key: `viewValue[k] && result[k] && stringify(result[k]) !==
stringify(viewValue[k])`. -/
def optDiverges {α : Type} [DecidableEq α] (truthy : α → Bool)
    (vv rv : Option α) : Bool :=
  match vv, rv with
  | some a, some b => truthy a && truthy b && !(a == b)
  | _, _ => false

/-- The `Object.keys(viewValue).some(...)` divergence test of source
lines 152-159, spelled out over the keys a form value can hold. -/
def divergesB (result viewValue : FormValue) : Bool :=
  optDiverges (fun s => !(s == "")) viewValue.search result.search ||
  optDiverges (fun _ => true) viewValue.sort result.sort ||
  optDiverges (fun n => !(n == 0)) viewValue.step result.step ||
  optDiverges (fun n => !(n == 0)) viewValue.page result.page ||
  optDiverges (fun _ => true) viewValue.columns result.columns ||
  optDiverges (fun s => !(s == "")) viewValue.viewName result.viewName ||
  viewValue.props.any fun kp =>
    kp.2.truthy &&
    match result.props.find? (fun q => q.1 == kp.1) with
    | some q => q.2.truthy && !(kp.2 == q.2)
    | none => false

/-- `normalizeValue` (source lines 134-166).  The view-switch branch calls
`views.find` (a `TypeError` when `views` is `undefined`, modelled `none`)
and re-encodes the found view; the edit branch prunes empty sequences and
drops `_view` when the divergence test fires (it also needs `views`). -/
def normalizeValue (nextValue prevValue : FormValue)
    (views : Option (List View)) : Option FormValue :=
  if strTruthy nextValue.viewName &&
      !(nextValue.viewName == prevValue.viewName) then
    match views with
    | none => none
    | some vs =>
      some (viewToFormValue (vs.find? (fun v => v.name == nextValue.viewName)))
  else
    let result := clearEmpty nextValue
    if strTruthy result.viewName then
      match views with
      | none => none
      | some vs =>
        let viewValue :=
          clearEmpty (viewToFormValue
            (vs.find? (fun v => v.name == result.viewName)))
        if divergesB result viewValue then
          some { result with viewName := none }
        else some result
    else some result

/-- The controller's state: the held form value and the `changed` flag. -/
structure CtrlState where
  formValue : FormValue
  changed : Bool
  deriving DecidableEq

/-- First activation (source lines 187-188): `useState(viewToFormValue(view))`
and an unset (falsy) `changed`. -/
def initState (view : Option View) : CtrlState :=
  { formValue := viewToFormValue view, changed := false }

/-- External view arrival (source line 222): the effect runs
`setFormValue(viewToFormValue(view))` and nothing else — `changed` is left
as it was. -/
def onExternalView (st : CtrlState) (view : Option View) : CtrlState :=
  { st with formValue := viewToFormValue view }

/-- `onReset` (source lines 217-220). -/
def onResetEvent (view : Option View) : CtrlState :=
  { formValue := viewToFormValue view, changed := false }

/-- The state transition of `onChange` (source lines 203-215): normalize,
reset the page, commit with `changed = true`.  A throw inside
`normalizeValue` happens before any state is set. -/
def onChangeEvent (st : CtrlState) (value : FormValue)
    (views : Option (List View)) : Option CtrlState :=
  match normalizeValue value st.formValue views with
  | none => none
  | some nv => some { formValue := resetPage nv st.formValue, changed := true }

/-- The state transition of `onSubmit` (source lines 190-201): as
`onChange` but with `changed = false`. -/
def onSubmitEvent (st : CtrlState) (value : FormValue)
    (views : Option (List View)) : Option CtrlState :=
  match normalizeValue value st.formValue views with
  | none => none
  | some nv => some { formValue := resetPage nv st.formValue, changed := false }

/-- The six reserved top-level form-value keys. -/
def reservedKeys : List String :=
  [formSearchKey, formSortKey, formStepKey, formPageKey, formColumnsKey,
   formViewNameKey]

/-- Well-formedness of a form value, guaranteed in JS by the object
representation and the data model: property keys are distinct and never
collide with a reserved key. -/
def FormValue.WF (value : FormValue) : Prop :=
  (value.props.map Prod.fst).Nodup ∧ ∀ kp ∈ value.props, kp.1 ∉ reservedKeys

/-- Well-formedness of an externally supplied view: distinct property keys
that avoid the reserved names, and property values in the external format
(no form-side range wrapper). -/
def View.WF (v : View) : Prop :=
  (v.properties.map Prod.fst).Nodup ∧
  (∀ kp ∈ v.properties, kp.1 ∉ reservedKeys) ∧
  (∀ kp ∈ v.properties, kp.2.isWrapped = false)

/-- The divergence condition stated over generic key lookup, following the
spec: some key holds a non-falsy value on both sides and the two values
are not structurally equal. -/
def DivergeKey (result viewValue : FormValue) : Prop :=
  ∃ (k : String) (a b : FVal),
    viewValue.get k = some a ∧ result.get k = some b ∧
    a.truthy = true ∧ b.truthy = true ∧ a ≠ b

/-- The spec's named view `\x7bname: "A", properties: \x7bstatus: "open"\x7d\x7d`. -/
def statusOpenView : View :=
  { name := some "A",
    properties := [("status", PropVal.scalar (Scalar.str "open"))] }

/-- The spec's diverged edit `\x7b_view: "A", status: "closed"\x7d`. -/
def statusClosedValue : FormValue :=
  { search := some "", viewName := some "A",
    props := [("status", PropVal.scalar (Scalar.str "closed"))] }

/-- The spec's cleared edit `\x7b_view: "A"\x7d` with `status` removed. -/
def statusClearedValue : FormValue :=
  { search := some "", viewName := some "A" }

/-- C7: a Range property `\x7bmin: 1, max: 5\x7d` is encoded to the wrapper
`\x7b_range: [1, 5]\x7d` and decoded back to `\x7bmin: 1, max: 5\x7d`. -/
theorem c7_range_roundtrip :
    (viewToFormValue (some { properties := [("age", PropVal.range 1 5)] })).props
      = [("age", PropVal.rangeWrap 1 5)] ∧
    formValueToView
        (viewToFormValue (some { properties := [("age", PropVal.range 1 5)] }))
        (some [])
      = some { properties := [("age", PropVal.range 1 5)] } := by
  decide

/-- C6: whenever `prev._page` exists and is greater than 1, `resetPage`
forces `next._page = 1` — regardless of which field changed — and
modifies no key of `next` other than `_page`. -/
theorem c6_reset_page (next prev : FormValue) (p : Int)
    (hp : prev.page = some p) (h1 : 1 < p) :
    resetPage next prev = { next with page := some 1 } := by
  have h0 : p ≠ 0 := by omega
  simp [resetPage, hp, h0, h1]

/-- Witness for C6, the spec's example: `prev = \x7b_page: 3, q: "a"\x7d`,
`next = \x7b_page: 3, q: "b"\x7d` yields `next._page = 1`. -/
theorem c6_reset_page_witness :
    resetPage
        { page := some 3, props := [("q", PropVal.scalar (Scalar.str "b"))] }
        { page := some 3, props := [("q", PropVal.scalar (Scalar.str "a"))] }
      = { page := some 1, props := [("q", PropVal.scalar (Scalar.str "b"))] } :=
  (c6_reset_page
      { page := some 3, props := [("q", PropVal.scalar (Scalar.str "b"))] }
      { page := some 3, props := [("q", PropVal.scalar (Scalar.str "a"))] }
      3 rfl (by norm_num)).trans (by decide)

/-- C2 fails on the code: when `_view` names a view absent from the
collection, `formValueToView` throws (`JSON.parse` of `undefined`), and
when the collection is `undefined`, both `formValueToView` and the edit
branch of `normalizeValue` throw (`TypeError` on `.find`) — all modelled
as `none` — instead of falling back to an empty view stub. -/
theorem c2_decode_missing_view_throws :
    formValueToView { search := some "", viewName := some "missing" }
        (some []) = none ∧
    formValueToView { search := some "", viewName := some "missing" }
        (some [{ name := some "B" }]) = none ∧
    formValueToView { search := some "", viewName := some "missing" }
        none = none ∧
    normalizeValue { search := some "", viewName := some "A" }
        { viewName := some "A" } none = none := by
  decide

/-- C10: `viewToFormValue` of an absent view is `\x7b_search: ""\x7d`, so the
view-switch branch of `normalizeValue` with an unmatched `_view` name
returns the blank form value instead of throwing, while `formValueToView`
on the same name throws (`none`). -/
theorem c10_encode_total :
    viewToFormValue none = { search := some "" } ∧
    ∀ (next prev : FormValue) (vs : List View) (n : String),
      next.viewName = some n → n ≠ "" → next.viewName ≠ prev.viewName →
      vs.find? (fun v => v.name == next.viewName) = none →
      normalizeValue next prev (some vs) = some { search := some "" } ∧
      formValueToView next (some vs) = none := by
  refine ⟨rfl, ?_⟩
  intro next prev vs n hn hne hdiff hfind
  have ht : strTruthy next.viewName = true := by simp [strTruthy, hn, hne]
  have hbe : (next.viewName == prev.viewName) = false := by
    simp [hdiff]
  constructor
  · simp [normalizeValue, ht, hbe, hfind, viewToFormValue]
  · simp [formValueToView, ht, hfind]

/-- Witness for C10: switching to the unknown view name "B" over an empty
collection yields the blank form value, decoding the same value throws. -/
theorem c10_encode_total_witness :
    normalizeValue { search := some "", viewName := some "B" } {} (some [])
        = some { search := some "" } ∧
    formValueToView { search := some "", viewName := some "B" } (some [])
        = none :=
  c10_encode_total.2 { search := some "", viewName := some "B" } {} [] "B"
    rfl (by decide) (by decide) rfl

/-- C4: when `next._view` is present and differs from `prev._view`,
`normalizeValue` returns exactly the canonical encoding of the matching
view, independently of every other field of `next`. -/
theorem c4_view_switch (next prev : FormValue) (vs : List View) (n : String)
    (w : View) (hn : next.viewName = some n) (hne : n ≠ "")
    (hdiff : next.viewName ≠ prev.viewName)
    (hfind : vs.find? (fun v => v.name == next.viewName) = some w) :
    normalizeValue next prev (some vs) = some (viewToFormValue (some w)) := by
  have ht : strTruthy next.viewName = true := by simp [strTruthy, hn, hne]
  have hbe : (next.viewName == prev.viewName) = false := by
    simp [hdiff]
  simp [normalizeValue, ht, hbe, hfind]

/-- Witness for C4, the spec's example: `prev = \x7b_view: "A"\x7d`,
`next = \x7b_view: "B", q: "x"\x7d` reconciles to exactly `encode(viewB)`,
discarding `q`. -/
theorem c4_view_switch_witness :
    normalizeValue
        { search := some "", viewName := some "B",
          props := [("q", PropVal.scalar (Scalar.str "x"))] }
        { viewName := some "A" }
        (some [{ name := some "B", search := some "bee" }])
      = some (viewToFormValue (some { name := some "B", search := some "bee" })) :=
  c4_view_switch
    { search := some "", viewName := some "B",
      props := [("q", PropVal.scalar (Scalar.str "x"))] }
    { viewName := some "A" }
    [{ name := some "B", search := some "bee" }] "B"
    { name := some "B", search := some "bee" }
    rfl (by decide) (by decide) (by decide)

/-- C5 is false as stated: an external view arrival onto a dirty controller
leaves the `changed` flag `true` — the effect only replaces the form
value, it does not clear the flag. -/
theorem c5_external_arrival_counterexample :
    ¬((onExternalView
        { formValue := { search := some "" }, changed := true } none).changed
      = false) := by
  decide

/-- C5 amended: change sets `changed` to `true`, submit and reset set it to
`false`, first activation starts with `false`, and an external view
arrival replaces the form value with `encode(view)` while leaving
`changed` unchanged. -/
theorem c5_dirty_transitions :
    (∀ (st : CtrlState) (view : Option View),
      onExternalView st view
        = { formValue := viewToFormValue view, changed := st.changed }) ∧
    (∀ view : Option View,
      initState view = { formValue := viewToFormValue view, changed := false }) ∧
    (∀ view : Option View,
      onResetEvent view
        = { formValue := viewToFormValue view, changed := false }) ∧
    (∀ (st st' : CtrlState) (value : FormValue) (views : Option (List View)),
      onChangeEvent st value views = some st' → st'.changed = true) ∧
    (∀ (st st' : CtrlState) (value : FormValue) (views : Option (List View)),
      onSubmitEvent st value views = some st' → st'.changed = false) := by
  refine ⟨fun st view => rfl, fun view => rfl, fun view => rfl, ?_, ?_⟩
  · intro st st' value views h
    unfold onChangeEvent at h
    cases hn : normalizeValue value st.formValue views with
    | none => rw [hn] at h; exact absurd h (by simp)
    | some nv =>
      rw [hn] at h
      injection h with h'
      rw [← h']
  · intro st st' value views h
    unfold onSubmitEvent at h
    cases hn : normalizeValue value st.formValue views with
    | none => rw [hn] at h; exact absurd h (by simp)
    | some nv =>
      rw [hn] at h
      injection h with h'
      rw [← h']

/-- Witness for C5: a concrete change event commits `changed = true`. -/
theorem c5_dirty_transitions_witness :
    ({ formValue := { search := some "" }, changed := true } : CtrlState).changed
      = true :=
  c5_dirty_transitions.2.2.2.1 (initState none)
    { formValue := { search := some "" }, changed := true }
    { search := some "" } none (by decide)

/-- C1 is false as stated: a view that carries a name present in the
collection does not round-trip — decoding re-seeds from the collection
and writes the spurious `view` key, so the result differs structurally. -/
theorem c1_roundtrip_counterexample :
    formValueToView (viewToFormValue (some { name := some "A" }))
        (some [{ name := some "A" }])
      ≠ some { name := some "A" } := by
  decide



/-- Unwrapping after wrapping is the identity on external property values. -/
theorem unwrap_wrap (p : PropVal) (h : p.isWrapped = false) :
    unwrapRange (wrapRange p) = p := by
  cases p <;> simp_all [wrapRange, unwrapRange, PropVal.isWrapped]

/-- C1 amended: for a well-formed view that carries no name (and no spurious
`view` key), whose search is not the empty string and whose step and page
are not 0, and that has no empty-sequence property, decoding its encoding
returns the view unchanged, for any views collection.  The original claim
fails for a named view (see the counterexample). -/
theorem c1_roundtrip_unnamed (v : View) (views : Option (List View))
    (hwf : v.WF) (hname : v.name = none) (hview : v.view = none)
    (hsearch : v.search ≠ some "") (hstep : v.step ≠ some 0)
    (hpage : v.page ≠ some 0)
    (_hseq : ∀ kp ∈ v.properties, kp.2 ≠ PropVal.seq []) :
    formValueToView (viewToFormValue (some v)) views = some v := by
  obtain ⟨_hnd, _hres, hwrap⟩ := hwf
  obtain ⟨nm, se, so, stp, pg, co, vw, pr⟩ := v
  dsimp only at hname hview hsearch hstep hpage hwrap ⊢
  subst hname
  subst hview
  have hprops :
      (mergeProps [] (pr.map fun kp => (kp.1, wrapRange kp.2))).map
        (fun kp => (kp.1, unwrapRange kp.2)) = pr := by
    simp only [mergeProps, List.map_nil, List.any_nil, Bool.not_false,
      List.filter_true, List.nil_append, List.map_map]
    have hcong : ∀ kp ∈ pr,
        ((fun kp => ((kp : String × PropVal).1, unwrapRange kp.2)) ∘
          fun kp => (kp.1, wrapRange kp.2)) kp = kp := by
      intro kp hkp
      simp only [Function.comp]
      rw [unwrap_wrap kp.2 (hwrap kp hkp)]
    rw [List.map_congr_left hcong]
    exact List.map_id' pr
  simp only [viewToFormValue, formValueToView, assembleView, strTruthy]
  simp only [show (("" : String) == "") = true from rfl, Bool.not_true,
    Bool.false_eq_true, if_false]
  rcases se with _ | s
  · rcases so with _ | s1 <;> rcases stp with _ | m <;> rcases pg with _ | q <;>
      rcases co with _ | c <;>
      simp_all [strTruthy, intTruthy, hprops, View.mk.injEq]
  · rcases so with _ | s1 <;> rcases stp with _ | m <;> rcases pg with _ | q <;>
      rcases co with _ | c <;>
      simp_all [strTruthy, intTruthy, hprops, View.mk.injEq]

/-- Empty-array testing agrees between the two value representations. -/
theorem isEmptyArr_pv (p : PropVal) :
    (FVal.pv p).isEmptyArr = p.isEmptySeq := by
  cases p with
  | seq xs => cases xs <;> rfl
  | scalar s => rfl
  | range mn mx => rfl
  | rangeWrap mn mx => rfl

/-- In a list with distinct keys, lookup of a member's key finds it. -/
theorem find?_eq_of_mem_nodupKeys {l : List (String × PropVal)}
    (h : (l.map Prod.fst).Nodup) {kp : String × PropVal} (hm : kp ∈ l) :
    l.find? (fun q => q.1 == kp.1) = some kp := by
  induction l with
  | nil => cases hm
  | cons a t ih =>
    rw [List.map_cons, List.nodup_cons] at h
    rcases List.mem_cons.mp hm with rfl | hmt
    · simp [List.find?_cons]
    · have hne : (a.1 == kp.1) = false := by
        rw [beq_eq_false_iff_ne]
        intro he
        exact h.1 (he ▸ List.mem_map_of_mem Prod.fst hmt)
      simp only [List.find?_cons, hne]
      exact ih h.2 hmt

/-- Lookup in the empty-sequence-pruned list, in terms of plain lookup. -/
theorem find?_filter_of_nodupKeys {l : List (String × PropVal)}
    (h : (l.map Prod.fst).Nodup) (k : String) :
    (l.filter fun kp => !kp.2.isEmptySeq).find? (fun q => q.1 == k)
      = match l.find? (fun q => q.1 == k) with
        | some q => if q.2.isEmptySeq then none else some q
        | none => none := by
  induction l with
  | nil => simp
  | cons a t ih =>
    rw [List.map_cons, List.nodup_cons] at h
    by_cases hk : a.1 = k
    · have hkb : (a.1 == k) = true := by simpa using hk
      by_cases he : a.2.isEmptySeq = true
      · have hnone : t.find? (fun q => q.1 == k) = none := by
          rw [List.find?_eq_none]
          intro x hx hbeq
          refine h.1 ?_
          have : x.1 = k := by simpa using hbeq
          rw [← hk] at this
          exact this ▸ List.mem_map_of_mem Prod.fst hx
        simp [List.filter_cons, he, List.find?_cons, hkb, ih h.2, hnone]
      · have he' : (!a.2.isEmptySeq) = true := by simp [he]
        simp only [List.filter_cons, he', if_true, List.find?_cons, hkb]
        simp [he]
    · have hkb : (a.1 == k) = false := by simpa using hk
      by_cases he : a.2.isEmptySeq = true
      · simp only [List.filter_cons, he, Bool.not_true, if_false,
          List.find?_cons, hkb]
        exact ih h.2
      · have he' : (!a.2.isEmptySeq) = true := by simp [he]
        simp only [List.filter_cons, he', if_true, List.find?_cons, hkb]
        exact ih h.2

/-- Lookup of a non-reserved key reads the property bag. -/
theorem FormValue.get_unreserved (value : FormValue) (k : String)
    (hk : k ∉ reservedKeys) :
    value.get k
      = (value.props.find? (fun q => q.1 == k)).map (fun q => FVal.pv q.2) := by
  simp only [reservedKeys, List.mem_cons, List.not_mem_nil, or_false] at hk
  push_neg at hk
  obtain ⟨h1, h2, h3, h4, h5, h6⟩ := hk
  simp [FormValue.get, h1, h2, h3, h4, h5, h6]

/-- Witness for C1: a concrete unnamed view with a range, a sequence and
all reserved fields round-trips. -/
theorem c1_roundtrip_unnamed_witness :
    formValueToView
        (viewToFormValue (some
          { search := some "x", sort := some { property := "n", ascending := true },
            step := some 2, page := some 3, columns := some ["c"],
            properties := [("age", PropVal.range 1 5),
                           ("tag", PropVal.seq [Scalar.str "t"])] })) none
      = some
          { search := some "x", sort := some { property := "n", ascending := true },
            step := some 2, page := some 3, columns := some ["c"],
            properties := [("age", PropVal.range 1 5),
                           ("tag", PropVal.seq [Scalar.str "t"])] } :=
  c1_roundtrip_unnamed
    { search := some "x", sort := some { property := "n", ascending := true },
      step := some 2, page := some 3, columns := some ["c"],
      properties := [("age", PropVal.range 1 5),
                     ("tag", PropVal.seq [Scalar.str "t"])] } none
    ⟨by decide, by decide, by decide⟩ rfl rfl (by decide) (by decide)
    (by decide) (by decide)

/-- C9: `clearEmpty` deletes exactly the keys holding a zero-length
sequence and leaves every other key and its value unchanged; in
particular it maps `\x7bcolor: [], size: "M"\x7d` to `\x7bsize: "M"\x7d`. -/
theorem c9_clear_empty :
    (∀ (value : FormValue) (k : String), value.WF →
      (clearEmpty value).get k
        = match value.get k with
          | some x => if x.isEmptyArr then none else some x
          | none => none) ∧
    clearEmpty { props := [("color", PropVal.seq []),
                           ("size", PropVal.scalar (Scalar.str "M"))] }
      = { props := [("size", PropVal.scalar (Scalar.str "M"))] } := by
  constructor
  · intro value k hwf
    by_cases hres : k ∈ reservedKeys
    · simp only [reservedKeys, List.mem_cons, List.not_mem_nil, or_false] at hres
      rcases hres with h | h | h | h | h | h <;> subst h
      · cases hse : value.search <;>
          simp [FormValue.get, clearEmpty, FVal.isEmptyArr, formSearchKey, hse]
      · cases hso : value.sort <;>
          simp [FormValue.get, clearEmpty, FVal.isEmptyArr, formSearchKey,
            formSortKey, hso]
      · cases hst : value.step <;>
          simp [FormValue.get, clearEmpty, FVal.isEmptyArr, formSearchKey,
            formSortKey, formStepKey, hst]
      · cases hpg : value.page <;>
          simp [FormValue.get, clearEmpty, FVal.isEmptyArr, formSearchKey,
            formSortKey, formStepKey, formPageKey, hpg]
      · rcases hco : value.columns with _ | (_ | ⟨c, cs⟩) <;>
          simp [FormValue.get, clearEmpty, FVal.isEmptyArr, formSearchKey,
            formSortKey, formStepKey, formPageKey, formColumnsKey, hco]
      · cases hvn : value.viewName <;>
          simp [FormValue.get, clearEmpty, FVal.isEmptyArr, formSearchKey,
            formSortKey, formStepKey, formPageKey, formColumnsKey,
            formViewNameKey, hvn]
    · obtain ⟨hnd, _⟩ := hwf
      rw [FormValue.get_unreserved _ _ hres, FormValue.get_unreserved _ _ hres]
      show ((value.props.filter fun kp => !kp.2.isEmptySeq).find?
          (fun q => q.1 == k)).map (fun q => FVal.pv q.2) = _
      rw [find?_filter_of_nodupKeys hnd]
      cases hf : value.props.find? (fun q => q.1 == k) with
      | none => simp
      | some q =>
        by_cases he : q.2.isEmptySeq = true <;>
          simp [he, isEmptyArr_pv]
  · decide

/-- Witness for C9: the pruned key `color` is gone. -/
theorem c9_clear_empty_witness :
    (clearEmpty { props := [("color", PropVal.seq []),
                            ("size", PropVal.scalar (Scalar.str "M"))] }).get "color"
      = none :=
  (c9_clear_empty.1
      { props := [("color", PropVal.seq []),
                  ("size", PropVal.scalar (Scalar.str "M"))] }
      "color" ⟨by decide, by decide⟩).trans (by decide)

/-- C8: `transformTouched` yields one entry per touched path; a path whose
second dot-segment is the range sentinel reports the value stored at its
first segment (the whole property), any other path reports the value
stored at the literal path. -/
theorem c8_transform_touched (touched : List String) (value : FormValue) :
    (transformTouched touched value).length = touched.length ∧
    (∀ key, key ∈ touched → ∀ p ps, splitDot key = p :: formRangeKey :: ps →
      (key, value.get p) ∈ transformTouched touched value) ∧
    (∀ key, key ∈ touched → (splitDot key).getD 1 "" ≠ formRangeKey →
      (key, value.get key) ∈ transformTouched touched value) := by
  refine ⟨by simp [transformTouched], ?_, ?_⟩
  · intro key hmem p ps hsplit
    have he : (fun key =>
        let parts := splitDot key
        if parts.getD 1 "" == formRangeKey then (key, value.get (parts.getD 0 ""))
        else (key, value.get key)) key = (key, value.get p) := by
      simp [hsplit]
    simp only [transformTouched]
    exact he ▸ List.mem_map_of_mem _ hmem
  · intro key hmem hne
    have he : (fun key =>
        let parts := splitDot key
        if parts.getD 1 "" == formRangeKey then (key, value.get (parts.getD 0 ""))
        else (key, value.get key)) key = (key, value.get key) := by
      have hb : (((splitDot key).getD 1 "") == formRangeKey) = false := by
        simpa using hne
      dsimp only
      rw [if_neg (by simp only [hb]; exact Bool.false_ne_true)]
    simp only [transformTouched]
    exact he ▸ List.mem_map_of_mem _ hmem

/-- Witness for C8, the spec's example: touching `age._range` reports the
value of the whole `age` property. -/
theorem c8_transform_touched_witness :
    ("age._range", some (FVal.pv (PropVal.rangeWrap 20 30)))
      ∈ transformTouched ["age._range"]
          { props := [("age", PropVal.rangeWrap 20 30)] } :=
  (by decide :
    FormValue.get { props := [("age", PropVal.rangeWrap 20 30)] } "age"
      = some (FVal.pv (PropVal.rangeWrap 20 30))) ▸
  (c8_transform_touched ["age._range"]
      { props := [("age", PropVal.rangeWrap 20 30)] }).2.1 "age._range"
    (by decide) "age" [] (by decide)

/-- Lookup at the `_search` key. -/
theorem get_search (v : FormValue) :
    v.get formSearchKey = v.search.map FVal.str := by
  simp [FormValue.get]

/-- Lookup at the `_sort` key. -/
theorem get_sort (v : FormValue) :
    v.get formSortKey = v.sort.map FVal.sortv := by
  simp [FormValue.get, formSortKey, formSearchKey]

/-- Lookup at the `_step` key. -/
theorem get_step (v : FormValue) :
    v.get formStepKey = v.step.map FVal.num := by
  simp [FormValue.get, formStepKey, formSortKey, formSearchKey]

/-- Lookup at the `_page` key. -/
theorem get_page (v : FormValue) :
    v.get formPageKey = v.page.map FVal.num := by
  simp [FormValue.get, formPageKey, formStepKey, formSortKey, formSearchKey]

/-- Lookup at the `_columns` key. -/
theorem get_columns (v : FormValue) :
    v.get formColumnsKey = v.columns.map FVal.strList := by
  simp [FormValue.get, formColumnsKey, formPageKey, formStepKey, formSortKey,
    formSearchKey]

/-- Lookup at the `_view` key. -/
theorem get_viewName (v : FormValue) :
    v.get formViewNameKey = v.viewName.map FVal.str := by
  simp [FormValue.get, formViewNameKey, formColumnsKey, formPageKey,
    formStepKey, formSortKey, formSearchKey]

/-- Characterization of one reserved-key divergence disjunct. -/
theorem optDiverges_true {α : Type} [DecidableEq α] {t : α → Bool}
    {vv rv : Option α} :
    optDiverges t vv rv = true
      ↔ ∃ a b, vv = some a ∧ rv = some b ∧ t a = true ∧ t b = true ∧ a ≠ b := by
  cases vv <;> cases rv <;> simp [optDiverges, and_assoc]


/-- The field-by-field divergence test of `normalizeValue` holds exactly
when some key holds a truthy value on both sides with structurally
different values. -/
theorem divergesB_iff (result viewValue : FormValue) (hv : viewValue.WF) :
    divergesB result viewValue = true ↔ DivergeKey result viewValue := by
  constructor
  · intro hd
    simp only [divergesB, Bool.or_eq_true] at hd
    rcases hd with ((((((h | h) | h) | h) | h) | h) | h)
    · obtain ⟨a, b, hva, hrb, ta, tb, hab⟩ := optDiverges_true.mp h
      exact ⟨formSearchKey, FVal.str a, FVal.str b,
        by rw [get_search, hva]; rfl, by rw [get_search, hrb]; rfl,
        by simpa [FVal.truthy] using ta, by simpa [FVal.truthy] using tb,
        by simp only [ne_eq, FVal.str.injEq]; exact hab⟩
    · obtain ⟨a, b, hva, hrb, _, _, hab⟩ := optDiverges_true.mp h
      exact ⟨formSortKey, FVal.sortv a, FVal.sortv b,
        by rw [get_sort, hva]; rfl, by rw [get_sort, hrb]; rfl, rfl, rfl,
        by simp only [ne_eq, FVal.sortv.injEq]; exact hab⟩
    · obtain ⟨a, b, hva, hrb, ta, tb, hab⟩ := optDiverges_true.mp h
      exact ⟨formStepKey, FVal.num a, FVal.num b,
        by rw [get_step, hva]; rfl, by rw [get_step, hrb]; rfl,
        by simpa [FVal.truthy] using ta, by simpa [FVal.truthy] using tb,
        by simp only [ne_eq, FVal.num.injEq]; exact hab⟩
    · obtain ⟨a, b, hva, hrb, ta, tb, hab⟩ := optDiverges_true.mp h
      exact ⟨formPageKey, FVal.num a, FVal.num b,
        by rw [get_page, hva]; rfl, by rw [get_page, hrb]; rfl,
        by simpa [FVal.truthy] using ta, by simpa [FVal.truthy] using tb,
        by simp only [ne_eq, FVal.num.injEq]; exact hab⟩
    · obtain ⟨a, b, hva, hrb, _, _, hab⟩ := optDiverges_true.mp h
      exact ⟨formColumnsKey, FVal.strList a, FVal.strList b,
        by rw [get_columns, hva]; rfl, by rw [get_columns, hrb]; rfl, rfl, rfl,
        by simp only [ne_eq, FVal.strList.injEq]; exact hab⟩
    · obtain ⟨a, b, hva, hrb, ta, tb, hab⟩ := optDiverges_true.mp h
      exact ⟨formViewNameKey, FVal.str a, FVal.str b,
        by rw [get_viewName, hva]; rfl, by rw [get_viewName, hrb]; rfl,
        by simpa [FVal.truthy] using ta, by simpa [FVal.truthy] using tb,
        by simp only [ne_eq, FVal.str.injEq]; exact hab⟩
    · obtain ⟨kp, hmem, hpred⟩ := List.any_eq_true.mp h
      rw [Bool.and_eq_true] at hpred
      obtain ⟨tkp, hmatch⟩ := hpred
      cases hf : result.props.find? (fun q => q.1 == kp.1) with
      | none => rw [hf] at hmatch; cases hmatch
      | some q =>
        rw [hf] at hmatch
        rw [Bool.and_eq_true] at hmatch
        obtain ⟨tq, hqne⟩ := hmatch
        refine ⟨kp.1, FVal.pv kp.2, FVal.pv q.2, ?_, ?_, ?_, ?_, ?_⟩
        · rw [FormValue.get_unreserved _ _ (hv.2 kp hmem),
            find?_eq_of_mem_nodupKeys hv.1 hmem]
          rfl
        · rw [FormValue.get_unreserved _ _ (hv.2 kp hmem), hf]
          rfl
        · simpa [FVal.truthy] using tkp
        · simpa [FVal.truthy] using tq
        · simp only [ne_eq, FVal.pv.injEq]
          simpa using hqne
  · rintro ⟨k, a, b, hva, hrb, ta, tb, hab⟩
    simp only [divergesB, Bool.or_eq_true]
    by_cases h1 : k = formSearchKey
    · subst h1
      rw [get_search] at hva hrb
      obtain ⟨s, hs, hsa⟩ := Option.map_eq_some'.mp hva
      obtain ⟨u, hu, hub⟩ := Option.map_eq_some'.mp hrb
      subst hsa; subst hub
      refine Or.inl (Or.inl (Or.inl (Or.inl (Or.inl (Or.inl
        (optDiverges_true.mpr ⟨s, u, hs, hu,
          by simpa [FVal.truthy] using ta, by simpa [FVal.truthy] using tb,
          ?_⟩))))))
      intro hc
      exact hab (hc ▸ rfl)
    by_cases h2 : k = formSortKey
    · subst h2
      rw [get_sort] at hva hrb
      obtain ⟨s, hs, hsa⟩ := Option.map_eq_some'.mp hva
      obtain ⟨u, hu, hub⟩ := Option.map_eq_some'.mp hrb
      subst hsa; subst hub
      refine Or.inl (Or.inl (Or.inl (Or.inl (Or.inl (Or.inr
        (optDiverges_true.mpr ⟨s, u, hs, hu, rfl, rfl, ?_⟩))))))
      intro hc
      exact hab (hc ▸ rfl)
    by_cases h3 : k = formStepKey
    · subst h3
      rw [get_step] at hva hrb
      obtain ⟨s, hs, hsa⟩ := Option.map_eq_some'.mp hva
      obtain ⟨u, hu, hub⟩ := Option.map_eq_some'.mp hrb
      subst hsa; subst hub
      refine Or.inl (Or.inl (Or.inl (Or.inl (Or.inr
        (optDiverges_true.mpr ⟨s, u, hs, hu,
          by simpa [FVal.truthy] using ta, by simpa [FVal.truthy] using tb,
          ?_⟩)))))
      intro hc
      exact hab (hc ▸ rfl)
    by_cases h4 : k = formPageKey
    · subst h4
      rw [get_page] at hva hrb
      obtain ⟨s, hs, hsa⟩ := Option.map_eq_some'.mp hva
      obtain ⟨u, hu, hub⟩ := Option.map_eq_some'.mp hrb
      subst hsa; subst hub
      refine Or.inl (Or.inl (Or.inl (Or.inr
        (optDiverges_true.mpr ⟨s, u, hs, hu,
          by simpa [FVal.truthy] using ta, by simpa [FVal.truthy] using tb,
          ?_⟩))))
      intro hc
      exact hab (hc ▸ rfl)
    by_cases h5 : k = formColumnsKey
    · subst h5
      rw [get_columns] at hva hrb
      obtain ⟨s, hs, hsa⟩ := Option.map_eq_some'.mp hva
      obtain ⟨u, hu, hub⟩ := Option.map_eq_some'.mp hrb
      subst hsa; subst hub
      refine Or.inl (Or.inl (Or.inr
        (optDiverges_true.mpr ⟨s, u, hs, hu, rfl, rfl, ?_⟩)))
      intro hc
      exact hab (hc ▸ rfl)
    by_cases h6 : k = formViewNameKey
    · subst h6
      rw [get_viewName] at hva hrb
      obtain ⟨s, hs, hsa⟩ := Option.map_eq_some'.mp hva
      obtain ⟨u, hu, hub⟩ := Option.map_eq_some'.mp hrb
      subst hsa; subst hub
      refine Or.inl (Or.inr
        (optDiverges_true.mpr ⟨s, u, hs, hu,
          by simpa [FVal.truthy] using ta, by simpa [FVal.truthy] using tb,
          ?_⟩))
      intro hc
      exact hab (hc ▸ rfl)
    · have hres : k ∉ reservedKeys := by
        simp [reservedKeys, h1, h2, h3, h4, h5, h6]
      rw [FormValue.get_unreserved _ _ hres] at hva hrb
      obtain ⟨q, hq, hqa⟩ := Option.map_eq_some'.mp hva
      obtain ⟨q', hq', hqb⟩ := Option.map_eq_some'.mp hrb
      subst hqa; subst hqb
      refine Or.inr ?_
      rw [List.any_eq_true]
      have hq1 : q.1 = k := by simpa using List.find?_some hq
      refine ⟨q, List.mem_of_find?_eq_some hq, ?_⟩
      rw [Bool.and_eq_true]
      refine ⟨by simpa [FVal.truthy] using ta, ?_⟩
      rw [hq1, hq']
      rw [Bool.and_eq_true]
      refine ⟨by simpa [FVal.truthy] using tb, ?_⟩
      have hne2 : q.2 ≠ q'.2 := by
        intro hc
        exact hab (hc ▸ rfl)
      simpa using hne2

/-- Encoding a well-formed view yields a well-formed form value. -/
theorem viewToFormValue_WF {v : View} (h : v.WF) :
    (viewToFormValue (some v)).WF := by
  obtain ⟨hnd, hres, _⟩ := h
  constructor
  · show ((v.properties.map fun kp => (kp.1, wrapRange kp.2)).map
      Prod.fst).Nodup
    rw [List.map_map]
    have he : (Prod.fst ∘ fun kp => ((kp : String × PropVal).1, wrapRange kp.2))
        = Prod.fst := by
      funext kp
      rfl
    rw [he]
    exact hnd
  · intro kp hkp
    obtain ⟨orig, ho, hoe⟩ := List.mem_map.mp hkp
    have : kp.1 = orig.1 := by rw [← hoe]
    rw [this]
    exact hres orig ho

/-- Pruning preserves well-formedness. -/
theorem clearEmpty_WF {v : FormValue} (h : v.WF) : (clearEmpty v).WF := by
  obtain ⟨hnd, hres⟩ := h
  constructor
  · exact List.Nodup.sublist
      (List.Sublist.map Prod.fst (List.filter_sublist v.props)) hnd
  · intro kp hkp
    exact hres kp (List.mem_of_mem_filter hkp)

/-- Pruning never touches the `_view` key. -/
theorem clearEmpty_viewName (v : FormValue) :
    (clearEmpty v).viewName = v.viewName := rfl

/-- C3: in the edit branch (here: `next._view` present, truthy and equal to
`prev._view`), `normalizeValue` prunes empty sequences from `next` and
from the canonical encoding of the named view and deletes `_view` exactly
when some key holds a non-falsy value on both sides whose two values are
not structurally equal; keys falsy on the canonical side or absent on the
edited side never count, so clearing a field retains `_view`. -/
theorem c3_divergence_iff (next prev : FormValue) (vs : List View) (n : String)
    (hn : next.viewName = some n) (hne : n ≠ "")
    (hprev : prev.viewName = some n)
    (hvwf : ∀ v ∈ vs, v.WF) :
    (DivergeKey (clearEmpty next)
        (clearEmpty (viewToFormValue
          (vs.find? (fun v => v.name == next.viewName)))) →
      normalizeValue next prev (some vs)
        = some { clearEmpty next with viewName := none }) ∧
    (¬DivergeKey (clearEmpty next)
        (clearEmpty (viewToFormValue
          (vs.find? (fun v => v.name == next.viewName)))) →
      normalizeValue next prev (some vs) = some (clearEmpty next)) := by
  have hWFvv : (clearEmpty (viewToFormValue
      (vs.find? (fun v => v.name == next.viewName)))).WF := by
    cases hf : vs.find? (fun v => v.name == next.viewName) with
    | none => exact ⟨by simp [viewToFormValue, clearEmpty], by
        simp [viewToFormValue, clearEmpty]⟩
    | some w =>
      exact clearEmpty_WF
        (viewToFormValue_WF (hvwf w (List.mem_of_find?_eq_some hf)))
  have ht1 : strTruthy next.viewName = true := by
    simp [strTruthy, hn, hne]
  have hbeq : (next.viewName == prev.viewName) = true := by
    simp [hn, hprev]
  have ht2 : strTruthy (clearEmpty next).viewName = true := by
    simp [clearEmpty_viewName, strTruthy, hn, hne]
  constructor <;> intro hDk
  · have hdb : divergesB (clearEmpty next) (clearEmpty (viewToFormValue
        (vs.find? (fun v => v.name == next.viewName)))) = true :=
      (divergesB_iff _ _ hWFvv).mpr hDk
    simp [normalizeValue, ht1, hbeq, ht2, clearEmpty_viewName, hdb]
  · have hdb : divergesB (clearEmpty next) (clearEmpty (viewToFormValue
        (vs.find? (fun v => v.name == next.viewName)))) = false := by
      rw [Bool.eq_false_iff]
      intro hc
      exact hDk ((divergesB_iff _ _ hWFvv).mp hc)
    simp [normalizeValue, ht1, hbeq, ht2, clearEmpty_viewName, hdb]




/-- Witness for C3, both spec examples: editing `status` away from the
preset drops `_view`; clearing `status` retains it. -/
theorem c3_divergence_iff_witness :
    normalizeValue statusClosedValue { viewName := some "A" }
        (some [statusOpenView])
      = some { search := some "",
               props := [("status", PropVal.scalar (Scalar.str "closed"))] } ∧
    normalizeValue statusClearedValue { viewName := some "A" }
        (some [statusOpenView])
      = some { search := some "", viewName := some "A" } := by
  have hw : ∀ v ∈ [statusOpenView], v.WF := by
    intro v hv
    rw [List.mem_singleton] at hv
    subst hv
    exact ⟨by decide, by decide, by decide⟩
  constructor
  · refine ((c3_divergence_iff statusClosedValue { viewName := some "A" }
      [statusOpenView] "A" rfl (by decide) rfl hw).1
      ⟨"status", FVal.pv (PropVal.scalar (Scalar.str "open")),
        FVal.pv (PropVal.scalar (Scalar.str "closed")),
        by decide, by decide, by decide, by decide, by decide⟩).trans ?_
    decide
  · refine ((c3_divergence_iff statusClearedValue { viewName := some "A" }
      [statusOpenView] "A" rfl (by decide) rfl hw).2
      (fun hDk => absurd ((divergesB_iff _ _ ⟨by decide, by decide⟩).mpr hDk)
        (by decide))).trans ?_
    decide

end DataForm
